import Mathlib

/-!
Shallow embedding of the menu-tree construction implemented by
`src/tk_toolchain/tk_testengine/engine.py` (class `TestEngine`), together
with theorems settling the specification claims about it.

Commands are modelled as records carrying the fields the engine reads from
`self.commands` entries: the dict key (`name`), `properties.get("app")`,
`properties.get("type")`, `properties.get("icon")` and the callback (kept as
an opaque token).  A Python dict is modelled as a list of entries in
insertion order whose names are pairwise distinct.
-/

namespace TkTestEngine

/-- An app object as seen by the engine: Python object identity is modelled
by an `id` field; `displayName` models the `display_name` attribute. -/
structure App where
  id : Nat
  displayName : String
deriving DecidableEq, Repr

/-- One entry of the `self.commands` dict: key `name`, plus the fields of
`details` the menu code reads. `callback` is an opaque token. -/
structure Command where
  name : String
  app : Option App
  cmdType : Option String
  icon : Option String
  callback : Nat
deriving DecidableEq, Repr

/-- One entry of the `menu_favourites` setting: an `{app_instance, name}` pair. -/
structure FavoriteRule where
  appInstance : String
  name : String
deriving DecidableEq, Repr

/-- The current context: `str(ctx)` as `label`, `ctx.shotgun_url`, and
`ctx.filesystem_locations`. -/
structure Context where
  label : String
  shotgunUrl : String
  filesystemLocations : List String
deriving DecidableEq, Repr

/-- A menu node as built by `_create_menu_item` / `_generate_context_menu` /
`_add_separator`: the dicts `{"type": "action" | "menu" | "separator", ...}`. -/
inductive MenuNode where
  | action (title : String) (icon : Option String) (callback : Nat)
  | menu (title : String) (children : List MenuNode)
  | separator

mutual

/-- Decidable equality on menu nodes. -/
def MenuNode.decEq : (a b : MenuNode) → Decidable (a = b)
  | .action t i c, .action u j d =>
    decidable_of_iff (t = u ∧ i = j ∧ c = d)
      (by
        constructor
        · rintro ⟨rfl, rfl, rfl⟩; rfl
        · intro h; injection h with h1 h2 h3; exact ⟨h1, h2, h3⟩)
  | .action _ _ _, .menu _ _ => isFalse (fun h => MenuNode.noConfusion h)
  | .action _ _ _, .separator => isFalse (fun h => MenuNode.noConfusion h)
  | .menu _ _, .action _ _ _ => isFalse (fun h => MenuNode.noConfusion h)
  | .menu t ch, .menu u ch2 =>
    haveI : Decidable (ch = ch2) := MenuNode.decEqList ch ch2
    decidable_of_iff (t = u ∧ ch = ch2)
      (by
        constructor
        · rintro ⟨rfl, rfl⟩; rfl
        · intro h; injection h with h1 h2; exact ⟨h1, h2⟩)
  | .menu _ _, .separator => isFalse (fun h => MenuNode.noConfusion h)
  | .separator, .action _ _ _ => isFalse (fun h => MenuNode.noConfusion h)
  | .separator, .menu _ _ => isFalse (fun h => MenuNode.noConfusion h)
  | .separator, .separator => isTrue rfl

/-- Decidable equality on lists of menu nodes. -/
def MenuNode.decEqList : (a b : List MenuNode) → Decidable (a = b)
  | [], [] => isTrue rfl
  | [], _ :: _ => isFalse (fun h => List.noConfusion h)
  | _ :: _, [] => isFalse (fun h => List.noConfusion h)
  | a :: as, b :: bs =>
    haveI : Decidable (a = b) := MenuNode.decEq a b
    haveI : Decidable (as = bs) := MenuNode.decEqList as bs
    decidable_of_iff (a = b ∧ as = bs)
      (by
        constructor
        · rintro ⟨rfl, rfl⟩; rfl
        · intro h; injection h with h1 h2; exact ⟨h1, h2⟩)

end

instance : DecidableEq MenuNode := MenuNode.decEq

/-- Token for the bound method `self._jump_to_sg` used as a callback. -/
def jumpToSgCallback : Nat := 0

/-- Token for the bound method `self._jump_to_fs` used as a callback. -/
def jumpToFsCallback : Nat := 1

/-- `_create_menu_item(title, callback, icon)`. -/
def createMenuItem (title : String) (callback : Nat) (icon : Option String) : MenuNode :=
  MenuNode.action title icon callback

/-- `_add_command_to_menu`: the menu item appended for a command, namely
`_create_menu_item(name, details["callback"], details["properties"].get("icon"))`. -/
def toMenuItem (c : Command) : MenuNode :=
  createMenuItem c.name c.callback c.icon

/-- The test `details["properties"].get("type") == "context_menu"` from
`_extract_context_menu_items`. -/
def isContextItem (c : Command) : Bool :=
  c.cmdType == some "context_menu"

/-- The group name computed in `_add_menu_actions`: `app.display_name`, or
`"Other Items"` when `properties.get("app")` is `None` (the
`AttributeError` fallback). -/
def appGroupName (c : Command) : String :=
  match c.app with
  | some a => a.displayName
  | none => "Other Items"

/-- `_get_app_instance_name(details)`: `None` when the command has no app,
otherwise the first key of `self.apps` whose value is that app object. -/
def getAppInstanceName (apps : List (String × App)) (details : Command) : Option String :=
  match details.app with
  | none => none
  | some app => (apps.find? (fun kv => kv.2 == app)).map (fun kv => kv.1)

/-- The match test of `_extract_favorites`:
`self._get_app_instance_name(details) == app_instance_name and name == menu_name`. -/
def favMatches (apps : List (String × App)) (fav : FavoriteRule) (c : Command) : Bool :=
  getAppInstanceName apps c == some fav.appInstance && c.name == fav.name

/-- `_extract_favorites`: for each rule of `menu_favourites` in order, scan the
working command dict for the first match; on a hit append the item to the
favorites and delete the command by its name; on a miss log a warning
`(app_instance, name)` and continue.  Returns
(favorites, remaining commands, warnings). -/
def extractFavorites (apps : List (String × App)) :
    List FavoriteRule → List Command → List MenuNode × List Command × List (String × String)
  | [], cmds => ([], cmds, [])
  | r :: rs, cmds =>
    match cmds.find? (favMatches apps r) with
    | some c =>
      let rest := extractFavorites apps rs (cmds.eraseP (fun x => x.name == c.name))
      (toMenuItem c :: rest.1, rest.2.1, rest.2.2)
    | none =>
      let rest := extractFavorites apps rs cmds
      (rest.1, rest.2.1, (r.appInstance, r.name) :: rest.2.2)

/-- Lexicographic comparison of character lists by code point: the order
Python uses to compare strings in `sorted(...)`. -/
def charListLe : List Char → List Char → Bool
  | [], _ => true
  | _ :: _, [] => false
  | a :: as, b :: bs =>
    if a.toNat < b.toNat then true
    else if b.toNat < a.toNat then false
    else charListLe as bs

/-- Python string comparison (case-sensitive, ordinal). -/
def strLe (a b : String) : Bool :=
  charListLe a.data b.data

/-- The context-flagged commands in the order `_extract_context_menu_items`
collects them: iterating `sorted(commands)` (keys sorted ascending) and
keeping the entries whose type is `"context_menu"`. -/
def contextItemCommands (cmds : List Command) : List Command :=
  (List.insertionSort (fun a b => strLe a.name b.name = true) cmds).filter isContextItem

/-- `_extract_context_menu_items`: the collected items (in sorted-name order)
together with the remaining commands (insertion order, context entries
deleted). -/
def extractContextMenuItems (cmds : List Command) : List MenuNode × List Command :=
  ((contextItemCommands cmds).map toMenuItem,
   cmds.filter (fun c => !(isContextItem c)))

/-- `_generate_context_menu(ctx, context_menu_commands)`: a menu titled
`str(ctx)` whose children are Jump to Shotgun, conditionally Jump to File
System (when `ctx.filesystem_locations` is truthy), a separator, then the
supplied context commands. -/
def generateContextMenu (ctx : Context) (contextMenuCommands : List MenuNode) : MenuNode :=
  MenuNode.menu ctx.label
    (createMenuItem "Jump to Shotgun" jumpToSgCallback none ::
      ((if ctx.filesystemLocations.isEmpty then []
        else [createMenuItem "Jump to File System" jumpToFsCallback none]) ++
       (MenuNode.separator :: contextMenuCommands)))

/-- The keys of the `commands_per_app` dict built in `_add_menu_actions`, in
first-encounter order (`setdefault` keeps the first insertion). -/
def groupKeys : List Command → List String
  | [] => []
  | c :: cs => appGroupName c :: (groupKeys cs).filter (fun g => g != appGroupName c)

/-- `sorted(commands_per_app)`: the group names sorted ascending. -/
def sortedGroupKeys (cmds : List Command) : List String :=
  List.insertionSort (fun a b => strLe a b = true) (groupKeys cmds)

/-- The node `_add_menu_actions` emits for one group: the bare item when the
group holds exactly one command, otherwise a menu titled with the group name
whose children are the group commands in their supplied order. -/
def renderGroup (cmds : List Command) (g : String) : MenuNode :=
  match cmds.filter (fun c => appGroupName c == g) with
  | [c] => toMenuItem c
  | group => MenuNode.menu g (group.map toMenuItem)

/-- All nodes appended by `_add_menu_actions`, one per group name in sorted
order. -/
def appendedGroups (cmds : List Command) : List MenuNode :=
  (sortedGroupKeys cmds).map (renderGroup cmds)

/-- `_add_menu_actions(menu, commands)` as a pure function: the input list
with the per-group nodes appended. -/
def addMenuActions (menu : List MenuNode) (cmds : List Command) : List MenuNode :=
  menu ++ appendedGroups cmds

/-- The inputs `__build_menu` draws on: `self.commands` (registry in insertion
order), `self.apps`, the `menu_favourites` setting, and the context. -/
structure BuildInput where
  commands : List Command
  apps : List (String × App)
  menuFavourites : List FavoriteRule
  ctx : Context

/-- Line 61 of `engine.py`: favorites are extracted first, from the copied
registry. -/
def favoritesStep (inp : BuildInput) :
    List MenuNode × List Command × List (String × String) :=
  extractFavorites inp.apps inp.menuFavourites inp.commands

/-- Line 62 of `engine.py`: context items are extracted from what the
favorites extraction left over. -/
def contextStep (inp : BuildInput) : List MenuNode × List Command :=
  extractContextMenuItems (favoritesStep inp).2.1

/-- The `menus` list of `__build_menu` just before `_add_menu_actions` runs:
the context menu, one unconditional separator, then — only when some
favorite matched — a separator, the favorites, and a separator. -/
def menusBeforeGroups (inp : BuildInput) : List MenuNode :=
  let favorites := (favoritesStep inp).1
  let base := [generateContextMenu inp.ctx (contextStep inp).1, MenuNode.separator]
  if favorites.isEmpty then base
  else base ++ [MenuNode.separator] ++ favorites ++ [MenuNode.separator]

/-- `__build_menu`: the final top-level node list handed to the renderer.
Line 66 of `engine.py` reassigns `commands` to the full `self.commands`
registry (the `getattr(None, "filter_menu_commands", identity)` call is
applied to `self.commands`, not to the edited copy), so the grouping pass
receives every registered command, including the already-extracted ones. -/
def buildMenu (inp : BuildInput) : List MenuNode :=
  addMenuActions (menusBeforeGroups inp) inp.commands

/-- The warnings `__build_menu` logs, all coming from `_extract_favorites`. -/
def buildWarnings (inp : BuildInput) : List (String × String) :=
  (favoritesStep inp).2.2

/-- `_jump_to_fs`: for each filesystem location, open
`"file://" + path` with backslashes replaced; on the first failed open the
handler evaluates `self.logging.error`, but the engine exposes only
`self.logger` (see line 148), so the attribute lookup raises and the
exception escapes the handler. -/
def jumpToFs (openUrl : String → Bool) (paths : List String) : Except String Unit :=
  match paths with
  | [] => Except.ok ()
  | p :: ps =>
    if openUrl (("file://" ++ p).replace "\\" "/") then jumpToFs openUrl ps
    else Except.error "AttributeError: TestEngine has no attribute logging"

/-- Separator test on nodes. -/
def isSeparator : MenuNode → Bool
  | MenuNode.separator => true
  | _ => false

/-! ### Basic facts about the comparator -/

theorem charListLe_total : ∀ a b : List Char, charListLe a b = true ∨ charListLe b a = true := by
  intro a
  induction a with
  | nil => intro b; exact Or.inl rfl
  | cons x xs ih =>
    intro b
    cases b with
    | nil => exact Or.inr rfl
    | cons y ys =>
      rcases lt_trichotomy x.toNat y.toNat with h | h | h
      · left; simp [charListLe, h]
      · have h1 : ¬ x.toNat < y.toNat := by rw [h]; exact lt_irrefl _
        have h2 : ¬ y.toNat < x.toNat := by rw [h]; exact lt_irrefl _
        rcases ih ys with h3 | h3
        · left; simp [charListLe, h1, h2, h3]
        · right; simp [charListLe, h1, h2, h3]
      · right; simp [charListLe, h]

theorem charListLe_trans :
    ∀ a b c : List Char, charListLe a b = true → charListLe b c = true → charListLe a c = true := by
  intro a
  induction a with
  | nil => intro b c _ _; rfl
  | cons x xs ih =>
    intro b c h1 h2
    cases b with
    | nil => simp [charListLe] at h1
    | cons y ys =>
      cases c with
      | nil => simp [charListLe] at h2
      | cons z zs =>
        by_cases hxy : x.toNat < y.toNat
        · by_cases hyz : y.toNat < z.toNat
          · simp [charListLe, lt_trans hxy hyz]
          · by_cases hzy : z.toNat < y.toNat
            · simp [charListLe, hyz, hzy] at h2
            · have he : y.toNat = z.toNat := le_antisymm (not_lt.mp hzy) (not_lt.mp hyz)
              simp [charListLe, he ▸ hxy]
        · by_cases hyx : y.toNat < x.toNat
          · simp [charListLe, hxy, hyx] at h1
          · have hexy : x.toNat = y.toNat := le_antisymm (not_lt.mp hyx) (not_lt.mp hxy)
            by_cases hyz : y.toNat < z.toNat
            · simp [charListLe, hexy ▸ hyz]
            · by_cases hzy : z.toNat < y.toNat
              · simp [charListLe, hyz, hzy] at h2
              · have heyz : y.toNat = z.toNat := le_antisymm (not_lt.mp hzy) (not_lt.mp hyz)
                have hxz : ¬ x.toNat < z.toNat := by rw [hexy, heyz]; exact lt_irrefl _
                have hzx : ¬ z.toNat < x.toNat := by rw [hexy, heyz]; exact lt_irrefl _
                simp only [charListLe, hxy, hyx, hyz, hzy, if_neg, if_false] at h1 h2 ⊢
                simp only [if_neg hxz, if_neg hzx]
                exact ih ys zs h1 h2

theorem charListLe_iff_not_lt : ∀ a b : List Char, charListLe a b = true ↔ ¬ List.lt b a := by
  intro a
  induction a with
  | nil =>
    intro b
    constructor
    · intro _ hlt; cases hlt
    · intro _; rfl
  | cons x xs ih =>
    intro b
    cases b with
    | nil =>
      constructor
      · intro h; simp [charListLe] at h
      · intro h; exact absurd (List.lt.nil x xs) h
    | cons y ys =>
      by_cases hxy : x.toNat < y.toNat
      · constructor
        · intro _ hlt
          cases hlt with
          | head _ _ hh => exact absurd hxy (not_lt.mpr (le_of_lt hh))
          | tail h1 h2 h3 => exact h2 hxy
        · intro _; simp [charListLe, hxy]
      · by_cases hyx : y.toNat < x.toNat
        · constructor
          · intro h; simp [charListLe, hxy, hyx] at h
          · intro h; exact absurd (List.lt.head ys xs hyx) h
        · constructor
          · intro h hlt
            cases hlt with
            | head _ _ hh => exact hyx hh
            | tail h1 h2 h3 =>
              exact (ih ys).mp (by simpa [charListLe, hxy, hyx] using h) h3
          · intro h
            simp only [charListLe, if_neg hxy, if_neg hyx]
            refine (ih ys).mpr ?_
            intro hlt
            exact h (List.lt.tail hyx hxy hlt)

/-- The executable comparator agrees with the standard string order, so
"sorted ascending" below means the usual lexicographic `≤`. -/
theorem strLe_iff_le (a b : String) : strLe a b = true ↔ a ≤ b := by
  rw [show (a ≤ b) ↔ ¬ b < a from not_lt.symm, String.lt_iff_toList_lt,
      show (b.toList < a.toList) ↔ List.lt b.data a.data from (List.lt_iff_lex_lt _ _).symm]
  exact charListLe_iff_not_lt a.data b.data

instance : IsTotal Command (fun a b => strLe a.name b.name = true) :=
  ⟨fun a b => charListLe_total a.name.data b.name.data⟩

instance : IsTrans Command (fun a b => strLe a.name b.name = true) :=
  ⟨fun _ _ _ h1 h2 => charListLe_trans _ _ _ h1 h2⟩

instance : IsTotal String (fun a b => strLe a b = true) :=
  ⟨fun a b => charListLe_total a.data b.data⟩

instance : IsTrans String (fun a b => strLe a b = true) :=
  ⟨fun _ _ _ h1 h2 => charListLe_trans _ _ _ h1 h2⟩

/-! ### Unfolding lemmas for the extraction passes -/

theorem extractFavorites_nil (apps : List (String × App)) (cmds : List Command) :
    extractFavorites apps [] cmds = ([], cmds, []) := rfl

theorem extractFavorites_cons_found {apps : List (String × App)} {r : FavoriteRule}
    {rs : List FavoriteRule} {cmds : List Command} {c : Command}
    (h : cmds.find? (favMatches apps r) = some c) :
    extractFavorites apps (r :: rs) cmds =
      (toMenuItem c ::
         (extractFavorites apps rs (cmds.eraseP (fun x => x.name == c.name))).1,
       (extractFavorites apps rs (cmds.eraseP (fun x => x.name == c.name))).2.1,
       (extractFavorites apps rs (cmds.eraseP (fun x => x.name == c.name))).2.2) := by
  conv_lhs => rw [extractFavorites]
  rw [h]

theorem extractFavorites_cons_miss {apps : List (String × App)} {r : FavoriteRule}
    {rs : List FavoriteRule} {cmds : List Command}
    (h : cmds.find? (favMatches apps r) = none) :
    extractFavorites apps (r :: rs) cmds =
      ((extractFavorites apps rs cmds).1,
       (extractFavorites apps rs cmds).2.1,
       (r.appInstance, r.name) :: (extractFavorites apps rs cmds).2.2) := by
  conv_lhs => rw [extractFavorites]
  rw [h]

/-! ### Facts about grouping -/

theorem mem_groupKeys {g : String} :
    ∀ {cmds : List Command}, g ∈ groupKeys cmds ↔ g ∈ cmds.map appGroupName := by
  intro cmds
  induction cmds with
  | nil => simp [groupKeys]
  | cons c cs ih =>
    simp only [groupKeys, List.mem_cons, List.mem_filter, List.map_cons, ih, bne_iff_ne, ne_eq]
    constructor
    · rintro (rfl | ⟨h1, _⟩)
      · exact Or.inl rfl
      · exact Or.inr h1
    · rintro (rfl | h1)
      · exact Or.inl rfl
      · by_cases hg : g = appGroupName c
        · exact Or.inl hg
        · exact Or.inr ⟨h1, hg⟩

theorem nodup_groupKeys : ∀ cmds : List Command, (groupKeys cmds).Nodup := by
  intro cmds
  induction cmds with
  | nil => simp [groupKeys]
  | cons c cs ih =>
    refine List.Nodup.cons ?_ (ih.filter _)
    intro hmem
    rcases List.mem_filter.mp hmem with ⟨_, hne⟩
    simp at hne

theorem mem_sortedGroupKeys {g : String} {cmds : List Command} :
    g ∈ sortedGroupKeys cmds ↔ g ∈ cmds.map appGroupName := by
  unfold sortedGroupKeys
  rw [List.mem_insertionSort]
  exact mem_groupKeys

theorem renderGroup_of_singleton {cmds : List Command} {g : String} {c : Command}
    (h : cmds.filter (fun x => appGroupName x == g) = [c]) :
    renderGroup cmds g = toMenuItem c := by
  unfold renderGroup
  rw [h]

theorem renderGroup_of_not_singleton {cmds : List Command} {g : String}
    (h : ∀ c, cmds.filter (fun x => appGroupName x == g) ≠ [c]) :
    renderGroup cmds g =
      MenuNode.menu g ((cmds.filter (fun x => appGroupName x == g)).map toMenuItem) := by
  unfold renderGroup
  rcases hfe : cmds.filter (fun x => appGroupName x == g) with _ | ⟨c2, _ | ⟨c3, r⟩⟩
  · rfl
  · exact absurd hfe (h c2)
  · rfl

/-! ### Facts about favorites extraction and name-based deletion -/

theorem name_ne_of_mem_eraseP {c x : Command} :
    ∀ {cmds : List Command}, (cmds.map Command.name).Nodup →
      x ∈ cmds.eraseP (fun y => y.name == c.name) → x.name ≠ c.name := by
  intro cmds
  induction cmds with
  | nil => intro _ hx; simp [List.eraseP] at hx
  | cons d ds ih =>
    intro hnd hx
    rw [List.map_cons, List.nodup_cons] at hnd
    by_cases hd : (d.name == c.name) = true
    · rw [show List.eraseP (fun y => y.name == c.name) (d :: ds) =
            ds from List.eraseP_cons_of_pos hd] at hx
      have hxn : x.name ∈ ds.map Command.name := List.mem_map_of_mem _ hx
      intro hic
      have hd2 : d.name = c.name := by simpa using hd
      rw [← hd2] at hic
      exact hnd.1 (hic ▸ hxn)
    · rw [show List.eraseP (fun y => y.name == c.name) (d :: ds) =
            d :: List.eraseP (fun y => y.name == c.name) ds from List.eraseP_cons_of_neg hd] at hx
      rcases List.mem_cons.mp hx with rfl | hx2
      · simpa using hd
      · exact ih hnd.2 hx2

theorem favorite_mem_source (apps : List (String × App)) :
    ∀ (rs : List FavoriteRule) (cmds : List Command) (m : MenuNode),
      m ∈ (extractFavorites apps rs cmds).1 → ∃ x ∈ cmds, m = toMenuItem x := by
  intro rs
  induction rs with
  | nil => intro cmds m hm; simp [extractFavorites_nil] at hm
  | cons r rs ih =>
    intro cmds m hm
    rcases hfe : cmds.find? (favMatches apps r) with _ | c
    · rw [extractFavorites_cons_miss hfe] at hm
      exact ih cmds m hm
    · rw [extractFavorites_cons_found hfe] at hm
      rcases List.mem_cons.mp hm with rfl | hm2
      · exact ⟨c, List.mem_of_find?_eq_some hfe, rfl⟩
      · rcases ih _ _ hm2 with ⟨x, hx, rfl⟩
        exact ⟨x, List.eraseP_subset _ hx, rfl⟩

/-! ### Concrete inputs used by the claim theorems -/

/-- A single context-flagged command with no owning app. -/
def cmdC1 : Command := ⟨"Validate", none, some "context_menu", none, 7⟩

/-- Registry containing only `cmdC1`; no favorites; no filesystem locations. -/
def inpC1 : BuildInput := ⟨[cmdC1], [], [], ⟨"Ctx", "http://sg", []⟩⟩

/-- An app registered under instance name `tk-loader`. -/
def appC3 : App := ⟨0, "Loader"⟩

/-- A command owned by `appC3`. -/
def cmdC3 : Command := ⟨"Publish", some appC3, none, none, 5⟩

/-- Registry with one command that one favorite rule matches. -/
def inpC3 : BuildInput :=
  ⟨[cmdC3], [("tk-loader", appC3)], [⟨"tk-loader", "Publish"⟩], ⟨"Ctx", "http://sg", []⟩⟩

/-! ### Claim theorems -/

/-- C1: the claim says the build partitions the commands exactly (context
items, favorites, per-app groups, each command exactly once).  On the code
this fails: line 66 of `engine.py` reassigns `commands` to the full
`self.commands`, so the grouping pass re-adds the already-extracted context
items and favorites.  Here the registry holds a single context-flagged
command, and the built result contains its action twice: once inside the
context submenu and once as a top-level group action. -/
theorem build_duplicates_extracted_command :
    inpC1.commands = [cmdC1] ∧
    buildMenu inpC1 =
      [MenuNode.menu "Ctx"
         [MenuNode.action "Jump to Shotgun" none jumpToSgCallback,
          MenuNode.separator, toMenuItem cmdC1],
       MenuNode.separator, toMenuItem cmdC1] :=
  ⟨rfl, rfl⟩

/-- C2: the first element of the built top-level sequence is always the
context submenu produced by `_generate_context_menu`, a `menu` node titled
with the context label; nothing in the build ever replaces it (there is no
flattening applied to it, whatever the command set, favorites or
filesystem flag). -/
theorem context_section_always_first (inp : BuildInput) :
    (buildMenu inp).head? = some (generateContextMenu inp.ctx (contextStep inp).1) ∧
    ∃ children, generateContextMenu inp.ctx (contextStep inp).1 =
      MenuNode.menu inp.ctx.label children := by
  constructor
  · show (addMenuActions (menusBeforeGroups inp) inp.commands).head? = _
    rw [addMenuActions]
    unfold menusBeforeGroups
    by_cases hf : ((favoritesStep inp).1).isEmpty = true <;> simp [hf]
  · exact ⟨_, rfl⟩

/-- C3 counterexample: the claim says the favorites actions are wrapped
between exactly two separators placed immediately after the context section.
On the code an unconditional separator already follows the context submenu,
so with one matching favorite the result is
`[context, separator, separator, favorite, separator, ...]`: no tail `rest`
makes the claimed shape `context :: separator :: favorites ++ separator :: rest`
equal to the built list. -/
theorem favorites_wrapping_counterexample :
    (∃ rest : List MenuNode,
        buildMenu inpC3 =
          generateContextMenu inpC3.ctx (contextStep inpC3).1 ::
            MenuNode.separator ::
              ((favoritesStep inpC3).1 ++ (MenuNode.separator :: rest))) ↔ False :=
  iff_false_intro (by
    rintro ⟨rest, h⟩
    rw [show (favoritesStep inpC3).1 = [MenuNode.action "Publish" none 5] from rfl] at h
    rw [show generateContextMenu inpC3.ctx (contextStep inpC3).1 =
          MenuNode.menu "Ctx"
            [MenuNode.action "Jump to Shotgun" none jumpToSgCallback,
             MenuNode.separator] from rfl] at h
    rw [show buildMenu inpC3 =
          [MenuNode.menu "Ctx"
             [MenuNode.action "Jump to Shotgun" none jumpToSgCallback,
              MenuNode.separator],
           MenuNode.separator, MenuNode.separator,
           MenuNode.action "Publish" none 5, MenuNode.separator,
           MenuNode.action "Publish" none 5] from rfl] at h
    simp at h)

/-- C3 amended: one separator always follows the context submenu; when at
least one favorite rule matched, the favorites are wrapped between two
further separators after that one (so two separators stand between the
context submenu and the first favorite); when none matched, no favorites
and no further separators appear — in particular the appended group nodes
contain no separator at all. -/
theorem separator_layout_amended (inp : BuildInput) :
    (if ((favoritesStep inp).1).isEmpty then
       buildMenu inp =
         generateContextMenu inp.ctx (contextStep inp).1 :: MenuNode.separator ::
           appendedGroups inp.commands
     else
       buildMenu inp =
         generateContextMenu inp.ctx (contextStep inp).1 :: MenuNode.separator ::
           MenuNode.separator ::
             ((favoritesStep inp).1 ++ (MenuNode.separator :: appendedGroups inp.commands))) ∧
    (appendedGroups inp.commands).countP isSeparator = 0 := by
  constructor
  · by_cases hf : ((favoritesStep inp).1).isEmpty = true
    · rw [if_pos hf]
      show addMenuActions (menusBeforeGroups inp) inp.commands = _
      rw [addMenuActions]
      unfold menusBeforeGroups
      simp [hf]
    · rw [if_neg hf]
      show addMenuActions (menusBeforeGroups inp) inp.commands = _
      rw [addMenuActions]
      unfold menusBeforeGroups
      simp [hf]
  · rw [List.countP_eq_zero]
    intro n hn
    rcases List.mem_map.mp hn with ⟨g, hg, rfl⟩
    by_cases hs : ∃ c, inp.commands.filter (fun x => appGroupName x == g) = [c]
    · rcases hs with ⟨c, hc⟩
      rw [renderGroup_of_singleton hc]
      simp [toMenuItem, createMenuItem, isSeparator]
    · push_neg at hs
      rw [renderGroup_of_not_singleton hs]
      simp [isSeparator]

/-- C9: the claim says a failed filesystem open is reported through the
logging sink and never escapes the handler.  On the code the first failed
open evaluates `self.logging.error`, but the engine only defines
`self.logger` (used at line 148), so an `AttributeError` is raised and
propagates out of `_jump_to_fs`: with an opener that always fails, nothing
is logged for either location and the handler aborts; with an opener that
always succeeds no error is raised. -/
theorem jump_to_fs_failure_raises :
    jumpToFs (fun _ => false) ["/tmp/project_a", "/tmp/project_b"] =
      Except.error "AttributeError: TestEngine has no attribute logging" ∧
    jumpToFs (fun _ => true) ["/tmp/project_a", "/tmp/project_b"] = Except.ok () :=
  ⟨rfl, rfl⟩

/-- App used by the C5 input. -/
def appC5 : App := ⟨1, "Loader"⟩

/-- Registry with two Loader commands, one of which a favorite rule
extracts. -/
def inpC5 : BuildInput :=
  ⟨[⟨"Publish", some appC5, none, none, 1⟩, ⟨"Open", some appC5, none, none, 2⟩],
   [("tk-loader", appC5)], [⟨"tk-loader", "Publish"⟩], ⟨"Ctx", "http://sg", []⟩⟩

/-- C5: the claim says the commands *remaining after* context and favorites
extraction are partitioned into per-app groups.  On the code this fails:
line 66 of `engine.py` hands `_add_menu_actions` the full `self.commands`
registry.  Here the favorites pass leaves only `Open` in the working set
(first conjunct), so the claim requires the Loader group to be the
singleton `Open` (rendered as a bare action); the build instead emits a
two-child Loader submenu that still contains `Publish`, which also sits in
the favorites section. -/
theorem grouping_uses_full_registry :
    (favoritesStep inpC5).2.1 = [⟨"Open", some appC5, none, none, 2⟩] ∧
    buildMenu inpC5 =
      [MenuNode.menu "Ctx"
         [MenuNode.action "Jump to Shotgun" none jumpToSgCallback, MenuNode.separator],
       MenuNode.separator, MenuNode.separator,
       MenuNode.action "Publish" none 1, MenuNode.separator,
       MenuNode.menu "Loader"
         [MenuNode.action "Publish" none 1, MenuNode.action "Open" none 2]] :=
  ⟨rfl, rfl⟩

/-- C6: the context submenu's children are, in order, the Jump to Shotgun
action; the Jump to File System action exactly when the context has
filesystem locations; one separator; then the context-flagged commands of
the working set in ascending name order (their name sequence is sorted
under the code-point string order, and they are a permutation of the
context-flagged commands left after the favorites pass, hence independent
of registry iteration order). -/
theorem context_menu_layout (inp : BuildInput) :
    generateContextMenu inp.ctx (contextStep inp).1 =
      MenuNode.menu inp.ctx.label
        (MenuNode.action "Jump to Shotgun" none jumpToSgCallback ::
          ((if inp.ctx.filesystemLocations.isEmpty then []
            else [MenuNode.action "Jump to File System" none jumpToFsCallback]) ++
           (MenuNode.separator ::
             (contextItemCommands (favoritesStep inp).2.1).map toMenuItem))) ∧
    ((contextItemCommands (favoritesStep inp).2.1).map Command.name).Sorted (· ≤ ·) ∧
    (contextItemCommands (favoritesStep inp).2.1).Perm
      (((favoritesStep inp).2.1).filter isContextItem) := by
  refine ⟨rfl, ?_, ?_⟩
  · refine List.Pairwise.imp (fun h => (strLe_iff_le _ _).mp h) ?_
    exact List.pairwise_map.mpr
      (List.Pairwise.filter _ (List.sorted_insertionSort _ _))
  · exact (List.perm_insertionSort _ _).filter _

/-- C7: a per-app group holding exactly one command renders as a bare
action in the appended group nodes of the top-level result, and no submenu
titled with that group name appears there. -/
theorem singleton_group_renders_flat (inp : BuildInput) (g : String) (c : Command)
    (h : inp.commands.filter (fun x => appGroupName x == g) = [c]) :
    (∃ pre, buildMenu inp = pre ++ appendedGroups inp.commands) ∧
    toMenuItem c ∈ appendedGroups inp.commands ∧
    ∀ ch, MenuNode.menu g ch ∉ appendedGroups inp.commands := by
  have hcmem : c ∈ inp.commands ∧ (appGroupName c == g) = true := by
    have hcf : c ∈ inp.commands.filter (fun x => appGroupName x == g) := by
      rw [h]; exact List.mem_singleton_self c
    exact List.mem_filter.mp hcf
  refine ⟨⟨menusBeforeGroups inp, rfl⟩, ?_, ?_⟩
  · have hg : g ∈ sortedGroupKeys inp.commands :=
      mem_sortedGroupKeys.mpr (List.mem_map.mpr ⟨c, hcmem.1, by simpa using hcmem.2⟩)
    rw [show toMenuItem c = renderGroup inp.commands g from (renderGroup_of_singleton h).symm]
    exact List.mem_map_of_mem _ hg
  · intro ch hmem
    rcases List.mem_map.mp hmem with ⟨g2, hg2, hre⟩
    by_cases hs : ∃ c2, inp.commands.filter (fun x => appGroupName x == g2) = [c2]
    · rcases hs with ⟨c2, hc2⟩
      rw [renderGroup_of_singleton hc2] at hre
      simp [toMenuItem, createMenuItem] at hre
    · push_neg at hs
      rw [renderGroup_of_not_singleton hs] at hre
      have hgg : g2 = g := by injection hre
      subst hgg
      exact hs c h

/-- Command used by the C7 witness: no owning app, so it lands in the
synthetic `"Other Items"` group. -/
def cmdC7 : Command := ⟨"Scan", none, none, none, 3⟩

/-- Registry containing only `cmdC7`. -/
def inpC7 : BuildInput := ⟨[cmdC7], [], [], ⟨"Ctx", "http://sg", []⟩⟩

/-- Witness for C7: concrete singleton `"Other Items"` group. -/
theorem singleton_group_renders_flat_witness :
    (∃ pre, buildMenu inpC7 = pre ++ appendedGroups inpC7.commands) ∧
    toMenuItem cmdC7 ∈ appendedGroups inpC7.commands ∧
    ∀ ch, MenuNode.menu "Other Items" ch ∉ appendedGroups inpC7.commands :=
  singleton_group_renders_flat inpC7 "Other Items" cmdC7 (by decide)

/-- C8: favorites are produced in the order the rules are declared — the
extraction over a concatenation of rule lists is the extraction over the
first list followed by the extraction of the second over the remainder,
favorites and warnings concatenated in that order; and a rule with no match
in the working set is non-fatal: the result is that of the remaining rules
unchanged, except for one extra warning carrying the rule's app instance
and command name. -/
theorem favorites_follow_rule_order_and_tolerate_misses :
    (∀ (apps : List (String × App)) (rs1 rs2 : List FavoriteRule) (cmds : List Command),
       extractFavorites apps (rs1 ++ rs2) cmds =
         ((extractFavorites apps rs1 cmds).1 ++
            (extractFavorites apps rs2 (extractFavorites apps rs1 cmds).2.1).1,
          (extractFavorites apps rs2 (extractFavorites apps rs1 cmds).2.1).2.1,
          (extractFavorites apps rs1 cmds).2.2 ++
            (extractFavorites apps rs2 (extractFavorites apps rs1 cmds).2.1).2.2)) ∧
    (∀ (apps : List (String × App)) (r : FavoriteRule) (rs : List FavoriteRule)
       (cmds : List Command),
       cmds.find? (favMatches apps r) = none →
       extractFavorites apps (r :: rs) cmds =
         ((extractFavorites apps rs cmds).1,
          (extractFavorites apps rs cmds).2.1,
          (r.appInstance, r.name) :: (extractFavorites apps rs cmds).2.2)) := by
  constructor
  · intro apps rs1 rs2 cmds
    induction rs1 generalizing cmds with
    | nil => simp [extractFavorites_nil]
    | cons r rs ih =>
      rcases hfe : cmds.find? (favMatches apps r) with _ | c
      · rw [List.cons_append, extractFavorites_cons_miss hfe,
            extractFavorites_cons_miss hfe, ih]
        rfl
      · rw [List.cons_append, extractFavorites_cons_found hfe,
            extractFavorites_cons_found hfe, ih]
        rfl
  · intro apps r rs cmds h
    exact extractFavorites_cons_miss h

/-- Witness for C8: a rule referencing an absent pair yields no favorite,
leaves the (empty) command set unchanged, and logs exactly its own
`(app_instance, name)` warning. -/
theorem favorites_follow_rule_order_and_tolerate_misses_witness :
    extractFavorites [] [⟨"tk-app", "Missing"⟩] [] =
      ([], [], [("tk-app", "Missing")]) := by
  have h := favorites_follow_rule_order_and_tolerate_misses.2
    [] ⟨"tk-app", "Missing"⟩ [] [] rfl
  simpa [extractFavorites_nil] using h

/-- App used by the C4 input. -/
def appC4 : App := ⟨3, "Loader"⟩

/-- A context-flagged command owned by `appC4`. -/
def cmdC4 : Command := ⟨"Validate", some appC4, some "context_menu", none, 9⟩

/-- Registry with one context-flagged command matched by a favorite rule. -/
def inpC4 : BuildInput :=
  ⟨[cmdC4], [("tk-loader", appC4)], [⟨"tk-loader", "Validate"⟩], ⟨"Ctx", "http://sg", []⟩⟩

/-- C4 counterexample: the claim says a favorite rule matching a
context-flagged command is a miss (the command stays in the context
section, is absent from the favorites, and a warning is reported).  On the
code favorites are extracted *before* context items (lines 61-62), so the
rule consumes the command: it is missing from the context items, present in
the favorites, and no warning is logged — the claimed conjunction is false. -/
theorem context_favorite_counterexample :
    (toMenuItem cmdC4 ∈ (contextStep inpC4).1 ∧
     toMenuItem cmdC4 ∉ (favoritesStep inpC4).1 ∧
     buildWarnings inpC4 ≠ []) ↔ False := by decide

/-- C4 amended: favorite matching ignores the context flag and runs before
context extraction, so a rule whose pair matches a command — context-flagged
or not — consumes it: the command's item is prepended to the favorites, the
command is deleted from the working set, no warning is recorded for that
rule, and its item cannot appear among the context items extracted
afterwards. -/
theorem favorite_rule_takes_context_command (apps : List (String × App))
    (r : FavoriteRule) (rs : List FavoriteRule) (cmds : List Command) (c : Command)
    (hnd : (cmds.map Command.name).Nodup)
    (hf : cmds.find? (favMatches apps r) = some c) :
    extractFavorites apps (r :: rs) cmds =
      (toMenuItem c ::
         (extractFavorites apps rs (cmds.eraseP (fun x => x.name == c.name))).1,
       (extractFavorites apps rs (cmds.eraseP (fun x => x.name == c.name))).2.1,
       (extractFavorites apps rs (cmds.eraseP (fun x => x.name == c.name))).2.2) ∧
    toMenuItem c ∉ (extractContextMenuItems (cmds.eraseP (fun x => x.name == c.name))).1 := by
  refine ⟨extractFavorites_cons_found hf, ?_⟩
  intro hm
  rcases List.mem_map.mp hm with ⟨x, hx, hxe⟩
  simp only [toMenuItem, createMenuItem, MenuNode.action.injEq] at hxe
  have hxin : x ∈ cmds.eraseP (fun y => y.name == c.name) := by
    unfold contextItemCommands at hx
    exact (List.mem_insertionSort _).mp (List.mem_filter.mp hx).1
  exact name_ne_of_mem_eraseP hnd hxin hxe.1

/-- Witness for C4's amended statement at the concrete C4 input. -/
theorem favorite_rule_takes_context_command_witness :
    extractFavorites [("tk-loader", appC4)] [⟨"tk-loader", "Validate"⟩] [cmdC4] =
      (toMenuItem cmdC4 ::
         (extractFavorites [("tk-loader", appC4)] []
            ([cmdC4].eraseP (fun x => x.name == cmdC4.name))).1,
       (extractFavorites [("tk-loader", appC4)] []
          ([cmdC4].eraseP (fun x => x.name == cmdC4.name))).2.1,
       (extractFavorites [("tk-loader", appC4)] []
          ([cmdC4].eraseP (fun x => x.name == cmdC4.name))).2.2) ∧
    toMenuItem cmdC4 ∉
      (extractContextMenuItems ([cmdC4].eraseP (fun x => x.name == cmdC4.name))).1 :=
  favorite_rule_takes_context_command [("tk-loader", appC4)] ⟨"tk-loader", "Validate"⟩
    [] [cmdC4] cmdC4 (by decide) rfl

/-- App used by the C10 witness. -/
def appC10 : App := ⟨4, "Loader"⟩

/-- Command used by the C10 witness. -/
def cmdC10 : Command := ⟨"Publish", some appC10, none, none, 4⟩

/-- C10: when two favorite rules carry the same `(app_instance, name)` pair
and the first finds a match `c`, the second rule finds nothing in the
remaining set (the matched command was deleted by name and names are
unique), so the extraction yields `c`'s item first, records the second
rule's warning, and `c`'s item does not recur among the favorites produced
by the remaining rules. -/
theorem duplicate_favorite_second_rule_misses (apps : List (String × App))
    (r1 r2 : FavoriteRule) (rs : List FavoriteRule) (cmds : List Command) (c : Command)
    (_happ : r1.appInstance = r2.appInstance) (hname : r1.name = r2.name)
    (hnd : (cmds.map Command.name).Nodup)
    (hf : cmds.find? (favMatches apps r1) = some c) :
    (cmds.eraseP (fun x => x.name == c.name)).find? (favMatches apps r2) = none ∧
    extractFavorites apps (r1 :: r2 :: rs) cmds =
      (toMenuItem c ::
         (extractFavorites apps rs (cmds.eraseP (fun x => x.name == c.name))).1,
       (extractFavorites apps rs (cmds.eraseP (fun x => x.name == c.name))).2.1,
       (r2.appInstance, r2.name) ::
         (extractFavorites apps rs (cmds.eraseP (fun x => x.name == c.name))).2.2) ∧
    toMenuItem c ∉ (extractFavorites apps rs (cmds.eraseP (fun x => x.name == c.name))).1 := by
  have hc : favMatches apps r1 c = true := List.find?_some hf
  have hcname : c.name = r1.name := by
    unfold favMatches at hc
    simp only [Bool.and_eq_true, beq_iff_eq] at hc
    exact hc.2
  have hnone :
      (cmds.eraseP (fun x => x.name == c.name)).find? (favMatches apps r2) = none := by
    rw [List.find?_eq_none]
    intro x hx hmatch
    have hxname : x.name = r2.name := by
      unfold favMatches at hmatch
      simp only [Bool.and_eq_true, beq_iff_eq] at hmatch
      exact hmatch.2
    exact name_ne_of_mem_eraseP hnd hx (by rw [hxname, ← hname, ← hcname])
  refine ⟨hnone, ?_, ?_⟩
  · rw [extractFavorites_cons_found hf, extractFavorites_cons_miss hnone]
  · intro hm
    rcases favorite_mem_source apps rs _ _ hm with ⟨x, hx, hxe⟩
    simp only [toMenuItem, createMenuItem, MenuNode.action.injEq] at hxe
    exact name_ne_of_mem_eraseP hnd hx hxe.1.symm

/-- Witness for C10 with two identical rules and one matching command. -/
theorem duplicate_favorite_second_rule_misses_witness :
    (([cmdC10].eraseP (fun x => x.name == cmdC10.name)).find?
        (favMatches [("tk-loader", appC10)] ⟨"tk-loader", "Publish"⟩) = none) ∧
    extractFavorites [("tk-loader", appC10)]
        [⟨"tk-loader", "Publish"⟩, ⟨"tk-loader", "Publish"⟩] [cmdC10] =
      (toMenuItem cmdC10 ::
         (extractFavorites [("tk-loader", appC10)] []
            ([cmdC10].eraseP (fun x => x.name == cmdC10.name))).1,
       (extractFavorites [("tk-loader", appC10)] []
          ([cmdC10].eraseP (fun x => x.name == cmdC10.name))).2.1,
       ("tk-loader", "Publish") ::
         (extractFavorites [("tk-loader", appC10)] []
            ([cmdC10].eraseP (fun x => x.name == cmdC10.name))).2.2) ∧
    toMenuItem cmdC10 ∉
      (extractFavorites [("tk-loader", appC10)] []
         ([cmdC10].eraseP (fun x => x.name == cmdC10.name))).1 :=
  duplicate_favorite_second_rule_misses [("tk-loader", appC10)]
    ⟨"tk-loader", "Publish"⟩ ⟨"tk-loader", "Publish"⟩ [] [cmdC10] cmdC10
    rfl rfl (by decide) rfl

end TkTestEngine
